import Mathlib

/-!
Shallow embedding of the `algo::Vector` growable-array engine
(`src/vector.hpp`) and the `algo::Stack` adapter (`src/stack.hpp`).

The observable state of a `Vector<T>` is the sequence of live elements
(`[start_, finish_)`) together with the capacity
(`end_of_storage_ - start_`).  We model it as a list plus a natural
number.  Machine pointers disappear in the embedding: positions and
iterators become indices into the list, and pointer identity (needed for
the `addressCheck` aliasing guard) is modelled by a flag saying whether
the argument's address lies in the live range `[start_, finish_)`.

Operations that can throw are modelled with `Except`, where the error
value carries the observable state of the vector at the moment the
exception propagates out of the member function.
-/

namespace AlgoVec

/-- Observable state of `algo::Vector<T>`: the live elements
`[start_, finish_)` and the capacity `end_of_storage_ - start_`. -/
structure Vec (α : Type) where
  data : List α
  cap : Nat
  deriving DecidableEq, Repr

namespace Vec

variable {α : Type}

/-- `size()`: `finish_ - start_`. -/
def size (v : Vec α) : Nat := v.data.length

/-- `capacity()`: `end_of_storage_ - start_`. -/
def capacity (v : Vec α) : Nat := v.cap

/-- `empty()`: `size() == 0`. -/
def isEmpty (v : Vec α) : Bool := v.size == 0

/-- `maxSize()`: `~SizeType(0)` with `SizeType = std::size_t` (64-bit). -/
def maxSize : Nat := 2 ^ 64 - 1

/-- `Vector()` default constructor: all three pointers null. -/
def empty : Vec α := ⟨[], 0⟩

/-- `Vector(count, value)`: `create(count)` then fill `count` copies. -/
def replicateVec (count : Nat) (value : α) : Vec α :=
  ⟨List.replicate count value, count⟩

/-- `Vector(count)`: `create(count)` then default-construct `count`
elements; the default-constructed element value is passed explicitly. -/
def defaultVec (count : Nat) (d : α) : Vec α :=
  ⟨List.replicate count d, count⟩

/-- `Vector(first, last)`: `create(distance)` then copy the range. -/
def ofRange (l : List α) : Vec α := ⟨l, l.length⟩

/-- `growShrinkAux(sz)`, non-throwing relocation path: the live elements
are relocated unchanged into a fresh buffer of `sz` slots
(precondition `assert(sz >= size())`). -/
def growShrinkAux (v : Vec α) (sz : Nat) : Vec α := ⟨v.data, sz⟩

/-- `reserve(new_cap)`: throws `length_error` when `new_cap > maxSize()`,
reallocates via `growShrinkAux` when `new_cap > capacity()`, otherwise
does nothing.  The error value carries the (unchanged) state. -/
def reserve (v : Vec α) (new_cap : Nat) : Except (Vec α) (Vec α) :=
  if new_cap > maxSize then .error v
  else if new_cap > v.capacity then .ok (v.growShrinkAux new_cap)
  else .ok v

/-- `shrink()`: `growShrinkAux(size())`. -/
def shrink (v : Vec α) : Vec α := v.growShrinkAux v.size

/-- `clear()`: destroy all live elements, `finish_ = start_`. -/
def clear (v : Vec α) : Vec α := ⟨[], v.cap⟩

/-- `push_back(e)` (and `emplace_back`), non-throwing element
construction: grow to `capacity() * 2 + 1` when full, then construct the
new element at `finish_`. -/
def push_back (v : Vec α) (e : α) : Vec α :=
  if v.size = v.capacity then
    let w := v.growShrinkAux (v.capacity * 2 + 1)
    ⟨w.data ++ [e], w.cap⟩
  else
    ⟨v.data ++ [e], v.cap⟩

/-- `pop_back()`: `--finish_; destroy_at(finish_)`.  Undefined on an
empty vector (the model is only used under the nonempty precondition). -/
def pop_back (v : Vec α) : Vec α := ⟨v.data.dropLast, v.cap⟩

/-- `back()`: `*(finish_ - 1)`; `junk` stands for the undefined read on
an empty vector. -/
def back (v : Vec α) (junk : α) : α := v.data.getLast? |>.getD junk

/-- `operator[]` unchecked access; `junk` stands for the undefined
out-of-range read. -/
def idx (v : Vec α) (n : Nat) (junk : α) : α := v.data.getD n junk

/-- `at(n)`: `rangeCheck(n)` throws `out_of_range` when `n >= size()`,
otherwise returns `(*this)[n]`. -/
def atIdx (v : Vec α) (n : Nat) (junk : α) : Except String α :=
  if n ≥ v.size then .error "Vector::rangeCheck failed"
  else .ok (v.idx n junk)

/-- `resize(new_size)`: truncate when smaller; default-construct the
difference in place when it fits strictly below capacity; otherwise
`growShrinkAux(new_size)` then default-construct the difference.
`d` is the default-constructed element value. -/
def resize (v : Vec α) (new_size : Nat) (d : α) : Vec α :=
  if new_size < v.size then
    ⟨v.data.take new_size, v.cap⟩
  else if new_size > v.size ∧ new_size < v.capacity then
    ⟨v.data ++ List.replicate (new_size - v.size) d, v.cap⟩
  else
    ⟨v.data ++ List.replicate (new_size - v.size) d, new_size⟩

/-- `erase(first, last)` with `first = begin()+f`, `last = begin()+l`:
closes the gap `[f, l)` by moving the tail left; returns `pfirst`,
i.e. the index `f`.  The result pairs the new state with the returned
iterator's index. -/
def eraseRange (v : Vec α) (f l : Nat) : Vec α × Nat :=
  if f ≠ l then
    (⟨v.data.take f ++ v.data.drop l, v.cap⟩, f)
  else
    (v, f)

/-- `erase(pos)` with `pos = begin()+p`: shifts the tail left by one. -/
def eraseAt (v : Vec α) (p : Nat) : Vec α × Nat :=
  (⟨v.data.take p ++ v.data.drop (p + 1), v.cap⟩, p)

/-- Net effect on the element sequence of inserting one element before
index `pos` (both the shift-in-place path and the fresh-buffer path of
the single-element `insert`/`emplace` produce this sequence). -/
def insertData (l : List α) (pos : Nat) (a : α) : List α :=
  l.take pos ++ a :: l.drop pos

/-- `insert(pos, const T& value)` copy overload.  `addressCheck` throws
`range_error` when the value's address lies in `[start_, finish_)`,
i.e. when it aliases a live element of this vector (`aliasLive`);
the throw happens before any mutation, so the error carries the
unchanged state.  Otherwise the element is inserted before `pos`; when
`finish_ == end_of_storage_` the buffer is regrown by
`insertExpandAux`, whose target is `old_size * 2 + 1`.  Returns the new
state and the index of the returned iterator. -/
def insertCopy (v : Vec α) (pos : Nat) (aliasLive : Bool) (value : α) :
    Except (Vec α) (Vec α × Nat) :=
  if aliasLive then .error v
  else if v.size ≠ v.capacity then
    .ok (⟨insertData v.data pos value, v.cap⟩, pos)
  else
    .ok (⟨insertData v.data pos value, v.size * 2 + 1⟩, pos)

/-- `insert(pos, T&& value)` move overload: same insertion logic, but
no `addressCheck`. -/
def insertMove (v : Vec α) (pos : Nat) (value : α) : Vec α × Nat :=
  if v.size ≠ v.capacity then
    (⟨insertData v.data pos value, v.cap⟩, pos)
  else
    (⟨insertData v.data pos value, v.size * 2 + 1⟩, pos)

/-- `insert(pos, count, value)` count overload: `count == 0` is a no-op,
`count == 1` delegates to the single-element copy overload (including
its `addressCheck`), otherwise the copies are placed in the spare
capacity when `finish_ + count <= end_of_storage_`, else
`insertRangeExpandAux` regrows to `old_size + max(count, old_size) + 1`. -/
def insertCount (v : Vec α) (pos count : Nat) (aliasLive : Bool) (value : α) :
    Except (Vec α) (Vec α × Nat) :=
  if count = 0 then .ok (v, pos)
  else if count = 1 then insertCopy v pos aliasLive value
  else if v.size + count ≤ v.capacity then
    .ok (⟨v.data.take pos ++ (List.replicate count value ++ v.data.drop pos),
          v.cap⟩, pos)
  else
    .ok (⟨v.data.take pos ++ (List.replicate count value ++ v.data.drop pos),
          v.size + max count v.size + 1⟩, pos)

/-- `assign(count, value)`: builds a fresh vector and swaps when
`count > capacity()`; otherwise overwrites in place (filling the extra
slots, or erasing the excess), reusing the buffer. -/
def assign (v : Vec α) (count : Nat) (value : α) : Vec α :=
  if count > v.capacity then ⟨List.replicate count value, count⟩
  else ⟨List.replicate count value, v.cap⟩

/-!
### Throwing element constructors

`throws a = true` models an element value whose copy construction
throws.  A successful copy yields an equal value (C++ copy semantics).
`moveNoexcept` abstracts `make_move_if_noexcept_iterator`: when `T` is
nothrow-move-constructible (or trivially copyable, where relocation is
`memmove`/`realloc`), relocation cannot throw; otherwise relocation
copy-constructs each live element in order and the first throwing copy
aborts the operation.
-/

/-- `growShrinkAux(sz)` with possibly-throwing element constructors.
On a throw during relocation the fresh buffer is destroyed and
deallocated and the exception propagates with `*this` untouched (the
originals were only read through copies, never moved-from). -/
def growShrinkAuxE (moveNoexcept : Bool) (throws : α → Bool)
    (v : Vec α) (sz : Nat) : Except (Vec α) (Vec α) :=
  if moveNoexcept then .ok ⟨v.data, sz⟩
  else if v.data.any throws then .error v
  else .ok ⟨v.data, sz⟩

/-- `push_back(e)` / `emplace_back` with possibly-throwing element
constructors: grow to `capacity() * 2 + 1` when full, then
copy-construct `e` at `finish_`.  The error value is the observable
state of the vector at the moment the exception escapes the call. -/
def push_backE (moveNoexcept : Bool) (throws : α → Bool)
    (v : Vec α) (e : α) : Except (Vec α) (Vec α) :=
  if v.size = v.capacity then
    match growShrinkAuxE moveNoexcept throws v (v.capacity * 2 + 1) with
    | .error w => .error w
    | .ok w =>
      if throws e then .error w
      else .ok ⟨w.data ++ [e], w.cap⟩
  else
    if throws e then .error v
    else .ok ⟨v.data ++ [e], v.cap⟩

end Vec

/-!
### Stack adapter (`src/stack.hpp`)

`Stack` wraps one `Vector` and forwards: `push → push_back`,
`pop → pop_back`, `top → back`, `empty/size → empty/size`.
-/

/-- Observable state of `algo::Stack<T>`: the wrapped container `c_`. -/
structure Stack (α : Type) where
  c : Vec α
  deriving DecidableEq, Repr

namespace Stack

variable {α : Type}

/-- `Stack()`: value-initializes the container. -/
def emptyS : Stack α := ⟨Vec.empty⟩

/-- `push(value)`: `c_.push_back(value)`. -/
def push (s : Stack α) (value : α) : Stack α := ⟨s.c.push_back value⟩

/-- `pop()`: `c_.pop_back()`; undefined when empty. -/
def pop (s : Stack α) : Stack α := ⟨s.c.pop_back⟩

/-- `top()`: `c_.back()`; `junk` stands for the undefined read when
empty. -/
def top (s : Stack α) (junk : α) : α := s.c.back junk

/-- `empty()`: `c_.empty()`. -/
def isEmpty (s : Stack α) : Bool := s.c.isEmpty

/-- `size()`: `c_.size()`. -/
def sizeS (s : Stack α) : Nat := s.c.size

end Stack

/-!
### Reachable states

`Reachable v` holds when the observable state `v` can be produced from
one of the constructors by a sequence of public operations, each applied
under its documented precondition (operations that are undefined
behavior outside their precondition — `pop_back` on empty, positions
beyond `end()` — are constrained accordingly).  `Except`-valued
operations contribute both their success state and their throw-time
state (the latter always equals the input state, as the throws happen
before any mutation).
-/

inductive Reachable {α : Type} : Vec α → Prop where
  | defaultCtor : Reachable Vec.empty
  | fillCtor (count : Nat) (value : α) : Reachable (Vec.replicateVec count value)
  | defaultFillCtor (count : Nat) (d : α) : Reachable (Vec.defaultVec count d)
  | rangeCtor (l : List α) : Reachable (Vec.ofRange l)
  | pushBack {v : Vec α} (e : α) : Reachable v → Reachable (v.push_back e)
  | popBack {v : Vec α} : Reachable v → v.data ≠ [] → Reachable v.pop_back
  | insertCopyOk {v w : Vec α} {pos r : Nat} {al : Bool} {a : α} :
      Reachable v → pos ≤ v.size → Vec.insertCopy v pos al a = .ok (w, r) →
      Reachable w
  | insertMoveStep {v : Vec α} {pos : Nat} {a : α} :
      Reachable v → pos ≤ v.size → Reachable (Vec.insertMove v pos a).1
  | insertCountOk {v w : Vec α} {pos count r : Nat} {al : Bool} {a : α} :
      Reachable v → pos ≤ v.size →
      Vec.insertCount v pos count al a = .ok (w, r) → Reachable w
  | eraseRangeStep {v : Vec α} {f l : Nat} :
      Reachable v → f ≤ l → l ≤ v.size → Reachable (v.eraseRange f l).1
  | eraseAtStep {v : Vec α} {p : Nat} :
      Reachable v → p < v.size → Reachable (v.eraseAt p).1
  | clearStep {v : Vec α} : Reachable v → Reachable v.clear
  | resizeStep {v : Vec α} (n : Nat) (d : α) : Reachable v → Reachable (v.resize n d)
  | reserveOk {v w : Vec α} {n : Nat} :
      Reachable v → Vec.reserve v n = .ok w → Reachable w
  | shrinkStep {v : Vec α} : Reachable v → Reachable v.shrink
  | assignStep {v : Vec α} (count : Nat) (value : α) :
      Reachable v → Reachable (v.assign count value)
  | swapStep {v w : Vec α} : Reachable v → Reachable w → Reachable ⟨w.data, w.cap⟩

/-!
### Sequences of push_back / pop_back
-/

/-- One step of a push/pop trace. -/
inductive PP (α : Type) where
  | push : α → PP α
  | pop : PP α

/-- Run a push/pop trace against a vector state. -/
def applyPP {α : Type} (v : Vec α) : List (PP α) → Vec α
  | [] => v
  | .push a :: ops => applyPP (v.push_back a) ops
  | .pop :: ops => applyPP v.pop_back ops

/-- A trace is valid when every `pop` happens on a nonempty vector
(`pop_back` on an empty vector is undefined behavior). -/
def validPP {α : Type} (v : Vec α) : List (PP α) → Prop
  | [] => True
  | .push a :: ops => validPP (v.push_back a) ops
  | .pop :: ops => v.data ≠ [] ∧ validPP v.pop_back ops

/-- Number of pushes in a trace. -/
def countPush {α : Type} : List (PP α) → Nat
  | [] => 0
  | .push _ :: ops => countPush ops + 1
  | .pop :: ops => countPush ops

/-- Number of pops in a trace. -/
def countPop {α : Type} : List (PP α) → Nat
  | [] => 0
  | .push _ :: ops => countPop ops
  | .pop :: ops => countPop ops + 1

/-!
## Supporting lemmas
-/

theorem Vec.size_push_back {α : Type} (v : Vec α) (e : α) :
    (v.push_back e).size = v.size + 1 := by
  unfold Vec.push_back
  split <;> simp [Vec.size, Vec.growShrinkAux]

theorem Vec.data_push_back {α : Type} (v : Vec α) (e : α) :
    (v.push_back e).data = v.data ++ [e] := by
  unfold Vec.push_back
  split <;> simp [Vec.growShrinkAux]

theorem Vec.size_pop_back {α : Type} (v : Vec α) :
    v.pop_back.size = v.size - 1 := by
  simp [Vec.pop_back, Vec.size]

theorem Vec.insertData_length {α : Type} (l : List α) (pos : Nat) (a : α) :
    (Vec.insertData l pos a).length = l.length + 1 := by
  simp [Vec.insertData]
  omega

theorem Vec.countData_length {α : Type} (l : List α) (pos count : Nat)
    (a : α) :
    (l.take pos ++ (List.replicate count a ++ l.drop pos)).length
      = l.length + count := by
  simp only [List.length_append, List.length_take, List.length_replicate,
    List.length_drop]
  omega

theorem Vec.insertCopy_ok_size_le {α : Type} {v w : Vec α} {pos r : Nat}
    {al : Bool} {a : α} (ih : v.size ≤ v.capacity)
    (heq : Vec.insertCopy v pos al a = .ok (w, r)) :
    w.size ≤ w.capacity := by
  unfold Vec.insertCopy at heq
  split at heq
  · simp at heq
  · split at heq
    next hne =>
      simp only [Except.ok.injEq, Prod.mk.injEq] at heq
      obtain ⟨hw, -⟩ := heq
      subst hw
      simp only [Vec.size, Vec.capacity, Vec.insertData_length] at *
      omega
    next hfull =>
      simp only [Except.ok.injEq, Prod.mk.injEq] at heq
      obtain ⟨hw, -⟩ := heq
      subst hw
      simp only [Vec.size, Vec.capacity, Vec.insertData_length] at *
      omega

theorem reachable_size_le_capacity {α : Type} {v : Vec α}
    (h : Reachable v) : v.size ≤ v.capacity := by
  induction h with
  | defaultCtor => exact Nat.le_refl 0
  | fillCtor count value => simp [Vec.replicateVec, Vec.size, Vec.capacity]
  | defaultFillCtor count d => simp [Vec.defaultVec, Vec.size, Vec.capacity]
  | rangeCtor l => simp [Vec.ofRange, Vec.size, Vec.capacity]
  | pushBack e hr ih =>
    unfold Vec.push_back
    split
    next heq =>
      simp only [Vec.size, Vec.capacity, Vec.growShrinkAux,
        List.length_append, List.length_cons, List.length_nil] at *
      omega
    next hne =>
      simp only [Vec.size, Vec.capacity, List.length_append,
        List.length_cons, List.length_nil] at *
      omega
  | popBack hr hne ih =>
    simp only [Vec.pop_back, Vec.size, Vec.capacity,
      List.length_dropLast] at *
    omega
  | insertCopyOk hr hpos heq ih => exact Vec.insertCopy_ok_size_le ih heq
  | insertMoveStep hr hpos ih =>
    unfold Vec.insertMove
    split
    next hne =>
      simp only [Vec.size, Vec.capacity, Vec.insertData_length] at *
      omega
    next hfull =>
      simp only [Vec.size, Vec.capacity, Vec.insertData_length] at *
      omega
  | insertCountOk hr hpos heq ih =>
    rename_i v' w' pos' count' r' al' a'
    unfold Vec.insertCount at heq
    split at heq
    · simp only [Except.ok.injEq, Prod.mk.injEq] at heq
      obtain ⟨hw, -⟩ := heq
      subst hw
      exact ih
    · split at heq
      · exact Vec.insertCopy_ok_size_le ih heq
      · split at heq
        next hfits =>
          simp only [Except.ok.injEq, Prod.mk.injEq] at heq
          obtain ⟨hw, -⟩ := heq
          subst hw
          simp only [Vec.size, Vec.capacity, Vec.countData_length] at *
          omega
        next hbig =>
          simp only [Except.ok.injEq, Prod.mk.injEq] at heq
          obtain ⟨hw, -⟩ := heq
          subst hw
          have hmx := Nat.le_max_left count' v'.size
          simp only [Vec.size, Vec.capacity, Vec.countData_length] at *
          omega
  | eraseRangeStep hr hfl hl ih =>
    unfold Vec.eraseRange
    split
    · simp only [Vec.size, Vec.capacity, List.length_append,
        List.length_take, List.length_drop] at *
      omega
    · exact ih
  | eraseAtStep hr hp ih =>
    simp only [Vec.eraseAt, Vec.size, Vec.capacity, List.length_append,
      List.length_take, List.length_drop] at *
    omega
  | clearStep hr ih => exact Nat.zero_le _
  | resizeStep n d hr ih =>
    unfold Vec.resize
    split
    next hlt =>
      simp only [Vec.size, Vec.capacity, List.length_take] at *
      omega
    next hge =>
      split
      next hmid =>
        simp only [Vec.size, Vec.capacity, List.length_append,
          List.length_replicate] at *
        omega
      next hout =>
        simp only [Vec.size, Vec.capacity, List.length_append,
          List.length_replicate] at *
        omega
  | reserveOk hr heq ih =>
    unfold Vec.reserve at heq
    split at heq
    · simp at heq
    · split at heq
      next hgt =>
        simp only [Except.ok.injEq] at heq
        subst heq
        simp only [Vec.size, Vec.capacity, Vec.growShrinkAux] at *
        omega
      next hle =>
        simp only [Except.ok.injEq] at heq
        subst heq
        exact ih
  | shrinkStep hr ih => exact Nat.le_refl _
  | assignStep count value hr ih =>
    unfold Vec.assign
    split
    next hgt =>
      simp only [Vec.size, Vec.capacity, List.length_replicate] at *
      omega
    next hle =>
      simp only [Vec.size, Vec.capacity, List.length_replicate] at *
      omega
  | swapStep hrv hrw ihv ihw => exact ihw

theorem validPP_applyPP_size {α : Type} (ops : List (PP α)) :
    ∀ v : Vec α, validPP v ops →
      (applyPP v ops).size + countPop ops = v.size + countPush ops := by
  induction ops with
  | nil =>
    intro v _
    simp [applyPP, countPush, countPop]
  | cons op ops ih =>
    intro v hv
    cases op with
    | push a =>
      simp only [validPP] at hv
      have h := ih (v.push_back a) hv
      simp only [applyPP, countPush, countPop]
      rw [Vec.size_push_back] at h
      omega
    | pop =>
      simp only [validPP] at hv
      obtain ⟨hne, hv'⟩ := hv
      have h := ih v.pop_back hv'
      have hsz : 1 ≤ v.size := List.length_pos.mpr hne
      simp only [applyPP, countPush, countPop]
      rw [Vec.size_pop_back] at h
      omega

theorem Vec.growShrinkAuxE_error {α : Type} {mn : Bool} {throws : α → Bool}
    {v w : Vec α} {sz : Nat}
    (h : Vec.growShrinkAuxE mn throws v sz = .error w) : w = v := by
  unfold Vec.growShrinkAuxE at h
  split at h
  · simp at h
  · split at h
    · simp only [Except.error.injEq] at h
      exact h.symm
    · simp at h

theorem Vec.growShrinkAuxE_ok {α : Type} {mn : Bool} {throws : α → Bool}
    {v w : Vec α} {sz : Nat}
    (h : Vec.growShrinkAuxE mn throws v sz = .ok w) : w = ⟨v.data, sz⟩ := by
  unfold Vec.growShrinkAuxE at h
  split at h
  · simp only [Except.ok.injEq] at h
    exact h.symm
  · split at h
    · simp at h
    · simp only [Except.ok.injEq] at h
      exact h.symm

/-!
## Claims
-/

/-- C1 counterexample: a one-element vector at full capacity, an element
type whose move constructor is `noexcept` (so relocation moves and
cannot throw) but whose copy constructor throws.  The growth to
capacity `2 * 1 + 1 = 3` succeeds, then copy-constructing the new
element at `finish_` throws: the escaping state has the original size
and contents but capacity `3 ≠ 1`, refuting "capacity unchanged". -/
theorem C1_counterexample :
    Vec.size (⟨[0], 1⟩ : Vec Nat) = Vec.capacity ⟨[0], 1⟩ ∧
    Vec.push_backE true (fun _ => true) (⟨[0], 1⟩ : Vec Nat) 5
        = .error ⟨[0], 3⟩ ∧
    Vec.capacity (⟨[0], 3⟩ : Vec Nat) ≠ Vec.capacity (⟨[0], 1⟩ : Vec Nat) :=
  ⟨rfl, rfl, by decide⟩

/-- C1 (amended): if an element copy constructor throws during a
growth-triggered `push_back`/`emplace_back`, the vector's size and
element sequence are unchanged and no stored element is moved-from
(relocation falls back to copies whenever the move constructor can
throw), but the capacity is either unchanged (throw during relocation)
or already grown to `capacity() * 2 + 1` (throw while constructing the
appended element, after the new buffer was adopted). -/
theorem C1_push_back_throw_amended {α : Type} (mn : Bool)
    (throws : α → Bool) (v : Vec α) (e : α) (w : Vec α)
    (hfull : v.size = v.capacity)
    (herr : Vec.push_backE mn throws v e = .error w) :
    w.data = v.data ∧ w.size = v.size ∧
    (w.capacity = v.capacity ∨ w.capacity = v.capacity * 2 + 1) := by
  unfold Vec.push_backE at herr
  rw [if_pos hfull] at herr
  split at herr
  next u hg =>
    simp only [Except.error.injEq] at herr
    have hu := Vec.growShrinkAuxE_error hg
    rw [← herr, hu]
    exact ⟨rfl, rfl, Or.inl rfl⟩
  next u hg =>
    have hu := Vec.growShrinkAuxE_ok hg
    subst hu
    split at herr
    · simp only [Except.error.injEq] at herr
      rw [← herr]
      exact ⟨rfl, rfl, Or.inr rfl⟩
    · simp at herr

theorem C1_push_back_throw_amended_witness :
    Vec.size (⟨[0], 1⟩ : Vec Nat) = Vec.capacity ⟨[0], 1⟩ ∧
    Vec.push_backE false (fun _ => true) (⟨[0], 1⟩ : Vec Nat) 5
        = .error ⟨[0], 1⟩ ∧
    (Vec.data (⟨[0], 1⟩ : Vec Nat) = Vec.data ⟨[0], 1⟩ ∧
     Vec.size (⟨[0], 1⟩ : Vec Nat) = Vec.size ⟨[0], 1⟩ ∧
     (Vec.capacity (⟨[0], 1⟩ : Vec Nat) = Vec.capacity ⟨[0], 1⟩ ∨
      Vec.capacity (⟨[0], 1⟩ : Vec Nat) = Vec.capacity ⟨[0], 1⟩ * 2 + 1)) :=
  ⟨rfl, rfl,
   C1_push_back_throw_amended false (fun _ => true) ⟨[0], 1⟩ 5 ⟨[0], 1⟩
     rfl rfl⟩

/-- C2 counterexample: a vector with size `2` and capacity `4`.
`resize(2)` (the `n == size()` case) falls through to the final branch
and calls `growShrinkAux(2)`, shrinking the capacity from `4` to `2` —
refuting both "leaves capacity unchanged when `n == size()`" and
"capacity never decreases". -/
theorem C2_counterexample :
    Vec.resize (⟨[1, 2], 4⟩ : Vec Nat) 2 0 = ⟨[1, 2], 2⟩ ∧
    (2 : Nat) = Vec.size (⟨[1, 2], 4⟩ : Vec Nat) ∧
    Vec.capacity (Vec.resize (⟨[1, 2], 4⟩ : Vec Nat) 2 0)
        < Vec.capacity (⟨[1, 2], 4⟩ : Vec Nat) := by
  refine ⟨by decide, rfl, by decide⟩

/-- C2 (amended): `resize(n)` with `n < size()` keeps exactly the first
`n` elements; with `n > size()` it appends `n - size()`
default-constructed elements after the existing ones; `size()` becomes
`n` in all cases.  The capacity is unchanged when `n < size()` or when
`size() < n < capacity()`; in every other case — including `n == size()`
with spare capacity — the code calls `growShrinkAux(n)` and the capacity
becomes exactly `n`, so `resize(size())` shrinks the capacity to the
size. -/
theorem C2_resize_spec {α : Type} (v : Vec α) (n : Nat) (d : α) :
    (v.resize n d).size = n ∧
    (v.resize n d).data
        = (if n ≤ v.size then v.data.take n
           else v.data ++ List.replicate (n - v.size) d) ∧
    (v.resize n d).capacity
        = (if n < v.size ∨ (v.size < n ∧ n < v.capacity) then v.capacity
           else n) := by
  obtain ⟨l, c⟩ := v
  simp only [Vec.resize, Vec.size, Vec.capacity]
  by_cases h1 : n < l.length
  · rw [if_pos h1, if_pos (show n ≤ l.length by omega),
      if_pos (show n < l.length ∨ l.length < n ∧ n < c from Or.inl h1)]
    exact ⟨by rw [List.length_take]; omega, rfl, rfl⟩
  · by_cases h2 : n > l.length ∧ n < c
    · rw [if_neg h1, if_pos h2, if_neg (show ¬n ≤ l.length by omega),
        if_pos (show n < l.length ∨ l.length < n ∧ n < c from
          Or.inr ⟨h2.1, h2.2⟩)]
      refine ⟨?_, rfl, rfl⟩
      simp only [List.length_append, List.length_replicate]
      omega
    · rw [if_neg h1, if_neg h2,
        if_neg (show ¬(n < l.length ∨ l.length < n ∧ n < c) by omega)]
      by_cases h3 : n ≤ l.length
      · have hnl : n = l.length := by omega
        subst hnl
        rw [if_pos h3]
        exact ⟨by simp, by simp, rfl⟩
      · rw [if_neg h3]
        refine ⟨?_, rfl, rfl⟩
        simp only [List.length_append, List.length_replicate]
        omega

/-- C3 counterexample: an empty vector with capacity `0` and a
count-insert of `k = 1` copy (which exceeds the spare capacity `0`).
The count overload delegates `count == 1` to the single-element
`insert`, whose growth target is `old_size * 2 + 1 = 1`, not
`size + max(k, size) + 1 = 2`. -/
theorem C3_counterexample :
    Vec.insertCount (⟨[], 0⟩ : Vec Nat) 0 1 false 42 = .ok (⟨[42], 1⟩, 0) ∧
    (1 : Nat) > Vec.capacity (⟨[], 0⟩ : Vec Nat)
        - Vec.size (⟨[], 0⟩ : Vec Nat) ∧
    Vec.capacity (⟨[42], 1⟩ : Vec Nat)
        ≠ Vec.size (⟨[], 0⟩ : Vec Nat)
            + max 1 (Vec.size (⟨[], 0⟩ : Vec Nat)) + 1 :=
  ⟨rfl, by decide, by decide⟩

/-- C3 (amended): a `push_back`/`emplace_back` on a full vector
reallocates to capacity exactly `2 * capacity() + 1`; a count-insert of
`k ≥ 2` copies with `k` exceeding the spare capacity reallocates to
exactly `size + max(k, size) + 1`; a count-insert of `k = 1` delegates
to the single-element insert, whose growth target on a full vector is
`size * 2 + 1` (these agree whenever `size ≥ 1` but differ on an empty
vector with capacity 0, where the code produces capacity `1`, not `2`). -/
theorem C3_growth_targets {α : Type} (v : Vec α) (pos count : Nat)
    (e : α) :
    (v.size = v.capacity →
      (v.push_back e).capacity = v.capacity * 2 + 1) ∧
    (2 ≤ count → v.capacity < v.size + count →
      ∀ w r, Vec.insertCount v pos count false e = .ok (w, r) →
        w.capacity = v.size + max count v.size + 1) ∧
    (v.size = v.capacity →
      ∀ w r, Vec.insertCount v pos 1 false e = .ok (w, r) →
        w.capacity = v.size * 2 + 1) := by
  refine ⟨?_, ?_, ?_⟩
  · intro hfull
    unfold Vec.push_back
    rw [if_pos hfull]
    rfl
  · intro h2 hc w r heq
    unfold Vec.insertCount at heq
    rw [if_neg (show ¬count = 0 by omega),
      if_neg (show ¬count = 1 by omega),
      if_neg (show ¬(v.size + count ≤ v.capacity) by omega)] at heq
    simp only [Except.ok.injEq, Prod.mk.injEq] at heq
    obtain ⟨hw, -⟩ := heq
    rw [← hw]
    rfl
  · intro hfull w r heq
    unfold Vec.insertCount at heq
    rw [if_neg (by omega : ¬(1 : Nat) = 0), if_pos rfl] at heq
    unfold Vec.insertCopy at heq
    rw [if_neg (by simp : ¬false = true),
      if_neg (not_not_intro hfull)] at heq
    simp only [Except.ok.injEq, Prod.mk.injEq] at heq
    obtain ⟨hw, -⟩ := heq
    rw [← hw]
    rfl

theorem C3_growth_targets_witness :
    Vec.size (⟨[9], 1⟩ : Vec Nat) = Vec.capacity ⟨[9], 1⟩ ∧
    (Vec.push_back (⟨[9], 1⟩ : Vec Nat) 7).capacity
        = Vec.capacity (⟨[9], 1⟩ : Vec Nat) * 2 + 1 ∧
    Vec.capacity (⟨[7, 7, 9], 4⟩ : Vec Nat)
        = Vec.size (⟨[9], 1⟩ : Vec Nat)
            + max 2 (Vec.size (⟨[9], 1⟩ : Vec Nat)) + 1 ∧
    Vec.capacity (⟨[7, 9], 3⟩ : Vec Nat)
        = Vec.size (⟨[9], 1⟩ : Vec Nat) * 2 + 1 :=
  ⟨rfl,
   (C3_growth_targets (⟨[9], 1⟩ : Vec Nat) 0 2 7).1 rfl,
   (C3_growth_targets (⟨[9], 1⟩ : Vec Nat) 0 2 7).2.1 (by decide)
     (by decide) ⟨[7, 7, 9], 4⟩ 0 rfl,
   (C3_growth_targets (⟨[9], 1⟩ : Vec Nat) 0 1 7).2.2 rfl ⟨[7, 9], 3⟩ 0
     rfl⟩

/-- C4 counterexample: the count overload with `count == 1` delegates to
the single-value copy overload, so it does run the `addressCheck`
aliasing guard — `insert(pos, 1, value)` with a value aliasing a live
element throws `range_error`, refuting "only the single-value copy
overload performs the aliasing check (the count/range overloads do
not)". -/
theorem C4_counterexample :
    Vec.insertCount (⟨[1, 2, 3], 5⟩ : Vec Nat) 0 1 true 1
        = .error ⟨[1, 2, 3], 5⟩ := rfl

/-- C4 (amended): the single-value copy overload rejects a value that
aliases a live element with a `range_error` before any mutation (state
unchanged); the move overload performs no aliasing check and always
inserts; the count overload performs the check exactly when
`count == 1` (by delegation to the copy overload) and performs no check
for `count ≥ 2`, where the insertion proceeds. -/
theorem C4_alias_check {α : Type} (v : Vec α) (pos count : Nat)
    (value : α) :
    Vec.insertCopy v pos true value = .error v ∧
    (Vec.insertMove v pos value).1.data
        = Vec.insertData v.data pos value ∧
    Vec.insertCount v pos 1 true value = .error v ∧
    (2 ≤ count →
      ∃ w r, Vec.insertCount v pos count true value = .ok (w, r)) := by
  have hcopy : Vec.insertCopy v pos true value = .error v := by
    unfold Vec.insertCopy
    rw [if_pos rfl]
  refine ⟨hcopy, ?_, ?_, ?_⟩
  · unfold Vec.insertMove
    split <;> rfl
  · unfold Vec.insertCount
    rw [if_neg (by omega : ¬(1 : Nat) = 0), if_pos rfl]
    exact hcopy
  · intro h2
    unfold Vec.insertCount
    rw [if_neg (show ¬count = 0 by omega),
      if_neg (show ¬count = 1 by omega)]
    split
    · exact ⟨_, pos, rfl⟩
    · exact ⟨_, pos, rfl⟩

theorem C4_alias_check_witness :
    Vec.insertCopy (⟨[1, 2], 4⟩ : Vec Nat) 1 true 9 = .error ⟨[1, 2], 4⟩ ∧
    (Vec.insertMove (⟨[1, 2], 4⟩ : Vec Nat) 1 9).1.data
        = Vec.insertData (Vec.data (⟨[1, 2], 4⟩ : Vec Nat)) 1 9 ∧
    Vec.insertCount (⟨[1, 2], 4⟩ : Vec Nat) 1 1 true 9
        = .error ⟨[1, 2], 4⟩ ∧
    (∃ w r, Vec.insertCount (⟨[1, 2], 4⟩ : Vec Nat) 1 2 true 9
        = .ok (w, r)) :=
  ⟨(C4_alias_check (⟨[1, 2], 4⟩ : Vec Nat) 1 2 9).1,
   (C4_alias_check (⟨[1, 2], 4⟩ : Vec Nat) 1 2 9).2.1,
   (C4_alias_check (⟨[1, 2], 4⟩ : Vec Nat) 1 2 9).2.2.1,
   (C4_alias_check (⟨[1, 2], 4⟩ : Vec Nat) 1 2 9).2.2.2 (by decide)⟩

/-- C5: for every vector and every `n` (any representable `size_t`
request): if `n ≤ capacity()`, `reserve(n)` changes nothing — reserve
never shrinks; if `n > capacity()`, after `reserve(n)` the capacity is
at least `n` while the size and element sequence are unchanged. -/
theorem C5_reserve_spec {α : Type} (v : Vec α) (n : Nat)
    (hn : n ≤ Vec.maxSize) :
    (n ≤ v.capacity → v.reserve n = .ok v) ∧
    (n > v.capacity →
      ∃ w, v.reserve n = .ok w ∧ w.capacity ≥ n ∧
        w.size = v.size ∧ w.data = v.data) := by
  constructor
  · intro h
    simp [Vec.reserve, Nat.not_lt.mpr hn, Nat.not_lt.mpr h]
  · intro h
    refine ⟨⟨v.data, n⟩, ?_, Nat.le_refl n, rfl, rfl⟩
    simp [Vec.reserve, Vec.growShrinkAux, Nat.not_lt.mpr hn, h]

theorem C5_reserve_spec_witness :
    Vec.reserve (⟨[7, 8], 5⟩ : Vec Nat) 3 = .ok ⟨[7, 8], 5⟩ ∧
    (∃ w, Vec.reserve (⟨[7, 8], 2⟩ : Vec Nat) 5 = .ok w ∧
      w.capacity ≥ 5 ∧ w.size = Vec.size (⟨[7, 8], 2⟩ : Vec Nat) ∧
      w.data = [7, 8]) :=
  ⟨(C5_reserve_spec ⟨[7, 8], 5⟩ 3 (by decide)).1 (by decide),
   (C5_reserve_spec ⟨[7, 8], 2⟩ 5 (by decide)).2 (by decide)⟩

/-- C6: for `0 ≤ f ≤ l ≤ size()`, `erase(begin()+f, begin()+l)` removes
exactly the elements at positions `[f, l)` (the result is the prefix
before `f` followed by the tail from `l`, order preserved), decreases
the size by `l - f`, keeps the capacity, and returns an iterator at
position `f`; when `f = l` nothing changes and the returned iterator
equals `last`. -/
theorem C6_erase_range {α : Type} (v : Vec α) (f l : Nat)
    (hfl : f ≤ l) (hl : l ≤ v.size) :
    (v.eraseRange f l).1.data = v.data.take f ++ v.data.drop l ∧
    (v.eraseRange f l).1.size = v.size - (l - f) ∧
    (v.eraseRange f l).1.capacity = v.capacity ∧
    (v.eraseRange f l).2 = f ∧
    (f = l → (v.eraseRange f l).1 = v) := by
  by_cases h : f = l
  · subst h
    have e1 : v.eraseRange f f = (v, f) := by
      unfold Vec.eraseRange
      simp
    rw [e1]
    exact ⟨(List.take_append_drop f v.data).symm, by simp, rfl, rfl,
      fun _ => rfl⟩
  · have hf : f ≤ v.size := Nat.le_trans hfl hl
    have e1 : v.eraseRange f l
        = (⟨v.data.take f ++ v.data.drop l, v.cap⟩, f) := by
      unfold Vec.eraseRange
      rw [if_pos h]
    rw [e1]
    refine ⟨rfl, ?_, rfl, rfl, fun hc => absurd hc h⟩
    show (v.data.take f ++ v.data.drop l).length = v.size - (l - f)
    simp only [List.length_append, List.length_take, List.length_drop]
    unfold Vec.size at hf hl ⊢
    omega

theorem C6_erase_range_witness :
    (1 ≤ 3 ∧ 3 ≤ Vec.size (⟨[1, 2, 3, 4, 5], 5⟩ : Vec Nat)) ∧
    (Vec.eraseRange (⟨[1, 2, 3, 4, 5], 5⟩ : Vec Nat) 1 3).2 = 1 ∧
    (Vec.eraseRange (⟨[1, 2, 3, 4, 5], 5⟩ : Vec Nat) 1 3).1.data
        = [1, 4, 5] ∧
    Vec.idx (Vec.eraseRange (⟨[1, 2, 3, 4, 5], 5⟩ : Vec Nat) 1 3).1 1 0 = 4 :=
  ⟨⟨by decide, by decide⟩,
   (C6_erase_range ⟨[1, 2, 3, 4, 5], 5⟩ 1 3 (by decide) (by decide)).2.2.2.1,
   by decide, by decide⟩

/-- C7: after `shrink()` the capacity equals the size while the size and
element sequence are unchanged, and a second `shrink()` changes nothing
observable. -/
theorem C7_shrink_idempotent {α : Type} (v : Vec α) :
    v.shrink.capacity = v.size ∧ v.shrink.data = v.data ∧
    v.shrink.size = v.size ∧ v.shrink.shrink = v.shrink :=
  ⟨rfl, rfl, rfl, rfl⟩

/-- C9: `at(i)` fails with the `out_of_range` condition exactly when
`i ≥ size()` (the model is a pure function of the state, so the vector
is unchanged either way), and for `i < size()` it returns exactly the
element that unchecked indexing yields, namely the element at
position `i`. -/
theorem C9_at_checked {α : Type} (v : Vec α) (i : Nat) (junk : α) :
    (i ≥ v.size → v.atIdx i junk = .error "Vector::rangeCheck failed") ∧
    (∀ h : i < v.size, v.atIdx i junk = .ok (v.data.get ⟨i, h⟩) ∧
      v.idx i junk = v.data.get ⟨i, h⟩) := by
  constructor
  · intro h
    simp [Vec.atIdx, h]
  · intro h
    have hd : v.idx i junk = v.data.get ⟨i, h⟩ := by
      simp [Vec.idx, List.getD_eq_getElem?_getD, List.getElem?_eq_getElem h,
        List.get_eq_getElem]
    exact ⟨by simp [Vec.atIdx, Nat.not_le.mpr h, hd], hd⟩

theorem C9_at_checked_witness :
    Vec.atIdx (⟨[5, 6], 4⟩ : Vec Nat) 3 99 = .error "Vector::rangeCheck failed" ∧
    Vec.atIdx (⟨[5, 6], 4⟩ : Vec Nat) 1 99
        = .ok (([5, 6] : List Nat).get ⟨1, by decide⟩) ∧
    Vec.idx (⟨[5, 6], 4⟩ : Vec Nat) 1 99
        = ([5, 6] : List Nat).get ⟨1, by decide⟩ :=
  ⟨(C9_at_checked ⟨[5, 6], 4⟩ 3 99).1 (by decide),
   ((C9_at_checked ⟨[5, 6], 4⟩ 1 99).2 (by decide)).1,
   ((C9_at_checked ⟨[5, 6], 4⟩ 1 99).2 (by decide)).2⟩

/-- C8: every vector state reachable from a constructor by public
operations applied under their documented preconditions satisfies
`0 ≤ size() ≤ capacity()` (the lower bound is inherent to `Nat`), and
along any valid sequence of `push_back`/`pop_back` operations, the size
changes by the number of pushes minus the number of pops — in
particular, starting from an empty vector, `size()` equals pushes minus
pops. -/
theorem C8_size_capacity_invariant :
    (∀ (α : Type) (v : Vec α), Reachable v → v.size ≤ v.capacity) ∧
    (∀ (α : Type) (v : Vec α) (ops : List (PP α)), validPP v ops →
      (applyPP v ops).size + countPop ops = v.size + countPush ops) ∧
    (∀ ops : List (PP Nat), validPP Vec.empty ops →
      countPop ops ≤ countPush ops ∧
      (applyPP Vec.empty ops).size = countPush ops - countPop ops) := by
  refine ⟨fun α v h => reachable_size_le_capacity h,
    fun α v ops h => validPP_applyPP_size ops v h, ?_⟩
  intro ops h
  have hpp := validPP_applyPP_size ops (Vec.empty : Vec Nat) h
  have h0 : (Vec.empty : Vec Nat).size = 0 := rfl
  omega

theorem C8_size_capacity_invariant_witness :
    Vec.size (Vec.push_back (Vec.empty : Vec Nat) 1)
        ≤ Vec.capacity (Vec.push_back (Vec.empty : Vec Nat) 1) ∧
    (applyPP (Vec.empty : Vec Nat) [PP.push 1, PP.push 2, PP.pop]).size
        + countPop [PP.push (1 : Nat), PP.push 2, PP.pop]
      = Vec.size (Vec.empty : Vec Nat)
          + countPush [PP.push (1 : Nat), PP.push 2, PP.pop] :=
  ⟨C8_size_capacity_invariant.1 Nat _
      (Reachable.pushBack 1 Reachable.defaultCtor),
   C8_size_capacity_invariant.2.1 Nat Vec.empty
      [PP.push 1, PP.push 2, PP.pop] (by exact ⟨by decide, trivial⟩)⟩

/-- C10: `top()` is the most recently pushed not-yet-popped element
(`top (push s a) = a`) and `pop()` removes exactly that element
(`pop (push s a)` holds the same element sequence as `s`); concretely,
from an empty stack, `push 1, push 2, push 3` followed by three pops
observes tops `3, 2, 1`, after which `empty()` is true. -/
theorem C10_stack_lifo :
    (∀ (α : Type) (s : Stack α) (a junk : α),
      (s.push a).top junk = a ∧ (s.push a).pop.c.data = s.c.data) ∧
    ((((Stack.emptyS.push 1).push 2).push 3).top 0 = 3 ∧
     (((Stack.emptyS.push 1).push 2).push 3).pop.top 0 = 2 ∧
     (((Stack.emptyS.push (1 : Nat)).push 2).push 3).pop.pop.top 0 = 1 ∧
     (((Stack.emptyS.push (1 : Nat)).push 2).push 3).pop.pop.pop.isEmpty = true) := by
  constructor
  · intro α s a junk
    constructor
    · simp [Stack.push, Stack.top, Vec.back, Vec.data_push_back]
    · simp [Stack.push, Stack.pop, Vec.pop_back, Vec.data_push_back]
  · exact ⟨by decide, by decide, by decide, by decide⟩

end AlgoVec
